import Mathlib

/-!
Shallow embedding of `src/fcm-worker/throttle.ts`: a fixed-window rate limiter
consisting of an atomic Redis Lua script (`DURATION_LIMITER_LUA`), the client
wrapper `durationAcquire`, and the fluent retry builder `DurationLimiterBuilder`.

Modelling choices:
* The Redis hash stored at the limiter key (`start`, `end`, `count`) together
  with the TTL last set by `EXPIRE` is a `RedisKeyState`; an absent key is
  `none`.  The Lua field name `end` is a Lean keyword, so it is called `wend`.
* Wall-clock time `now` (JS `Date.now() / 1000`, a float with sub-second
  precision) is a rational number; `nowIntSeconds` is its floor.
* The Lua script runs atomically in Redis, so every execution is a pure state
  transition `Option RedisKeyState → RedisKeyState × LuaReply`; concurrent
  invocations for one key serialize into some sequence of such transitions.
* The builder method `then` (a Lean keyword, so called `thenRun` here) is
  modelled with the acquire outcomes of its successive attempts and the
  elapsed-seconds readings it observes given as sequences, and a fuel bound on
  loop iterations; running out of fuel yields `none` (the loop has not
  terminated yet).  Invoking the success callback, invoking the failure
  continuation, returning `false`, and throwing an error are the four
  constructors of `ThenResult`.
-/

namespace SamFcmWorker

/-- The Redis hash stored at a limiter key: fields `start`, `end` (here
`wend`), `count`, as written by `HSET` in the Lua script. -/
structure LimiterRecord where
  start : Int
  wend : Int
  count : Int
  deriving DecidableEq, Repr

/-- The full per-key store state: the hash plus the TTL seconds last set by
`EXPIRE` on that key. -/
structure RedisKeyState where
  hash : LimiterRecord
  expiry : Int
  deriving DecidableEq, Repr

/-- The `{ allowed, decaysAt, remaining }` triple returned by the Lua script. -/
structure LuaReply where
  allowed : Bool
  decaysAt : Int
  remaining : Int
  deriving DecidableEq, Repr

/-- The Lua local function `reset()`: open a new window
`[now_start, now_start + decay]` with `count = 1`, set the TTL to
`decay * 2`, and return `{ true, window_end, max_locks - 1 clamped at 0 }`. -/
def luaReset (now_start decay max_locks : Int) : RedisKeyState × LuaReply :=
  let window_start := now_start
  let window_end := now_start + decay
  let st : RedisKeyState := ⟨⟨window_start, window_end, 1⟩, decay * 2⟩
  let remaining0 := max_locks - 1
  let remaining := if remaining0 < 0 then 0 else remaining0
  (st, ⟨true, window_end, remaining⟩)

/-- One atomic execution of `DURATION_LIMITER_LUA` on the state of the limiter
key: reset when the key is absent, increment via `HINCRBY` when `now` lies in
`[start, end]` (both ends inclusive), reset otherwise. -/
def luaStep (st : Option RedisKeyState) (now : ℚ) (now_start decay max_locks : Int) :
    RedisKeyState × LuaReply :=
  match st with
  | none => luaReset now_start decay max_locks
  | some s =>
      let current_start := s.hash.start
      let current_end := s.hash.wend
      if (current_start : ℚ) ≤ now ∧ now ≤ (current_end : ℚ) then
        let new_count := s.hash.count + 1
        let allowed : Bool := decide (new_count ≤ max_locks)
        let remaining0 := max_locks - new_count
        let remaining := if remaining0 < 0 then 0 else remaining0
        (⟨⟨current_start, current_end, new_count⟩, s.expiry⟩,
         ⟨allowed, current_end, remaining⟩)
      else
        luaReset now_start decay max_locks

/-- The typed outcome produced by the client `durationAcquire`. -/
structure DurationAcquireResult where
  allowed : Bool
  decaysAt : Int
  remaining : Int
  deriving DecidableEq, Repr

/-- The client `durationAcquire`: computes `nowIntSeconds = floor(now)`, runs
the script, then coerces `allowed` to a boolean and floors `remaining` at 0
(`Math.max(0, Number(res[2]))`).  Returns the post-state together with the
typed result. -/
def durationAcquire (st : Option RedisKeyState) (now : ℚ) (maxLocks decay : Int) :
    RedisKeyState × DurationAcquireResult :=
  let nowIntSeconds : Int := ⌊now⌋
  let r := luaStep st now nowIntSeconds decay maxLocks
  (r.1, ⟨r.2.allowed, r.2.decaysAt, max 0 r.2.remaining⟩)

/-- State of one limiter key after `n` sequential `durationAcquire` calls made
at times `ts 0, ts 1, …`, starting from store state `init`. -/
def runState (init : Option RedisKeyState) (ts : ℕ → ℚ) (maxLocks decay : Int) :
    ℕ → Option RedisKeyState
  | 0 => init
  | n + 1 => some (durationAcquire (runState init ts maxLocks decay n) (ts n) maxLocks decay).1

/-- Result observed by the `n`-th (0-based) `durationAcquire` call in the
sequence described by `runState`. -/
def runResult (init : Option RedisKeyState) (ts : ℕ → ℚ) (maxLocks decay : Int) (n : ℕ) :
    DurationAcquireResult :=
  (durationAcquire (runState init ts maxLocks decay n) (ts n) maxLocks decay).2

/-- The ordinal count the `n`-th caller's script execution produced: the
`count` field right after that call (the `HINCRBY` result on the increment
path, `1` on a reset path). -/
def observedCount (init : Option RedisKeyState) (ts : ℕ → ℚ) (maxLocks decay : Int)
    (n : ℕ) : Int :=
  match runState init ts maxLocks decay (n + 1) with
  | none => 0
  | some s => s.hash.count

/-- The configuration fields of `DurationLimiterBuilder`, with the defaults
from the class declaration (`maxLocks = 1`, `decay = 60`, `timeout = 3`,
`sleepMs = 750`). -/
structure DurationLimiterBuilder where
  maxLocks : Int := 1
  decay : Int := 60
  timeout : ℚ := 3
  sleepMs : Int := 750
  deriving DecidableEq, Repr

/-- How one invocation of the builder's `then` method resolves. -/
inductive ThenResult where
  /-- The success callback was invoked; its value is the overall result. -/
  | callbackRun : ThenResult
  /-- The failure continuation was invoked with the last acquire outcome. -/
  | failureRun : DurationAcquireResult → ThenResult
  /-- The boolean `false` was returned to the caller. -/
  | returnedFalse : ThenResult
  /-- An `Error` with the given `name` and `message` was thrown. -/
  | threw : String → String → ThenResult
  deriving DecidableEq, Repr

/-- The builder setter `allow(maxLocks)`: assigns `this.maxLocks` and returns
`this`. -/
def DurationLimiterBuilder.allow (b : DurationLimiterBuilder) (maxLocks : Int) :
    DurationLimiterBuilder :=
  { b with maxLocks := maxLocks }

/-- The builder setter `every(decaySeconds)`: assigns `this.decay` and returns
`this`. -/
def DurationLimiterBuilder.every (b : DurationLimiterBuilder) (decaySeconds : Int) :
    DurationLimiterBuilder :=
  { b with decay := decaySeconds }

/-- The builder setter `block(timeoutSeconds)`: assigns `this.timeout` and
returns `this`. -/
def DurationLimiterBuilder.block (b : DurationLimiterBuilder) (timeoutSeconds : ℚ) :
    DurationLimiterBuilder :=
  { b with timeout := timeoutSeconds }

/-- The builder setter `sleep(ms)`: assigns `this.sleepMs` and returns
`this`. -/
def DurationLimiterBuilder.sleep (b : DurationLimiterBuilder) (ms : Int) :
    DurationLimiterBuilder :=
  { b with sleepMs := ms }

/-- The `while (true)` retry loop of `then` when `timeout > 0`.  `attempts i`
is the outcome of the `i`-th `tryOnce`, `elapsed i` the elapsed-seconds value
computed right after it, `hasFailure` whether a failure continuation was
supplied.  Each iteration: if allowed, run the callback; else if
`elapsed ≥ timeout`, dispatch to the failure continuation or throw the
`LimiterTimeoutException` error; else sleep and loop.  The builder's fields
are threaded through unchanged, mirroring that the method never assigns them;
`fuel` bounds the iterations, `none` meaning the loop is still running. -/
def DurationLimiterBuilder.thenLoop (b : DurationLimiterBuilder) (hasFailure : Bool)
    (attempts : ℕ → DurationAcquireResult) (elapsed : ℕ → ℚ) :
    ℕ → ℕ → DurationLimiterBuilder × Option ThenResult
  | _, 0 => (b, none)
  | i, fuel + 1 =>
      let info := attempts i
      if info.allowed then (b, some ThenResult.callbackRun)
      else if elapsed i ≥ b.timeout then
        if hasFailure then (b, some (ThenResult.failureRun info))
        else (b, some (ThenResult.threw "LimiterTimeoutException" "LimiterTimeoutException"))
      else
        DurationLimiterBuilder.thenLoop b hasFailure attempts elapsed (i + 1) fuel

/-- The builder method `then` (`thenRun` here since `then` is a Lean keyword):
when `timeout ≤ 0`, a single `tryOnce` that runs the callback, dispatches to
the failure continuation, or returns `false`; when `timeout > 0`, the retry
loop `thenLoop`. -/
def DurationLimiterBuilder.thenRun (b : DurationLimiterBuilder) (hasFailure : Bool)
    (attempts : ℕ → DurationAcquireResult) (elapsed : ℕ → ℚ) (fuel : ℕ) :
    DurationLimiterBuilder × Option ThenResult :=
  if b.timeout ≤ 0 then
    let info := attempts 0
    if info.allowed then (b, some ThenResult.callbackRun)
    else if hasFailure then (b, some (ThenResult.failureRun info))
    else (b, some ThenResult.returnedFalse)
  else
    DurationLimiterBuilder.thenLoop b hasFailure attempts elapsed 0 fuel

/-! ### Basic lemmas about single calls -/

lemma clamp_eq_max (x : Int) : max 0 (if x < 0 then 0 else x) = max 0 x := by
  split_ifs with h
  · rw [max_eq_left (le_of_lt h), max_self]
  · rfl

/-- A call that finds no stored record opens a fresh window at `⌊now⌋`. -/
lemma durationAcquire_fresh (st : Option RedisKeyState) (now : ℚ) (M W : Int)
    (hfresh : st = none ∨
      ∃ s, st = some s ∧ ¬((s.hash.start : ℚ) ≤ now ∧ now ≤ (s.hash.wend : ℚ))) :
    durationAcquire st now M W =
      (⟨⟨⌊now⌋, ⌊now⌋ + W, 1⟩, W * 2⟩, ⟨true, ⌊now⌋ + W, max 0 (M - 1)⟩) := by
  rcases hfresh with h | ⟨s, rfl, h⟩
  · subst h
    simp [durationAcquire, luaStep, luaReset, clamp_eq_max]
    split_ifs <;> omega
  · simp [durationAcquire, luaStep, luaReset, h, clamp_eq_max]
    split_ifs <;> omega

/-- A call whose time lies inside the stored window (both ends inclusive)
increments the count and leaves everything else unchanged. -/
lemma durationAcquire_inWindow (s : RedisKeyState) (now : ℚ) (M W : Int)
    (h1 : (s.hash.start : ℚ) ≤ now) (h2 : now ≤ (s.hash.wend : ℚ)) :
    durationAcquire (some s) now M W =
      (⟨⟨s.hash.start, s.hash.wend, s.hash.count + 1⟩, s.expiry⟩,
       ⟨decide (s.hash.count + 1 ≤ M), s.hash.wend, max 0 (M - (s.hash.count + 1))⟩) := by
  simp [durationAcquire, luaStep, h1, h2, clamp_eq_max]
  split_ifs <;> omega

/-! ### Lemmas about sequences of calls -/

lemma runState_succ_shift (init : Option RedisKeyState) (ts : ℕ → ℚ) (M W : Int) (n : ℕ) :
    runState init ts M W (n + 1) =
      runState (some (durationAcquire init (ts 0) M W).1) (fun i => ts (i + 1)) M W n := by
  induction n with
  | zero => rfl
  | succ n ih => rw [runState, ih]; rfl

/-- In-window invariant: starting from a stored record, `n` calls all timed
inside its window leave the window fields and expiry unchanged and raise the
count by `n`. -/
lemma runState_inWindow (s0 : RedisKeyState) (ts : ℕ → ℚ) (M W : Int) (n : ℕ)
    (hin : ∀ i, i < n → (s0.hash.start : ℚ) ≤ ts i ∧ ts i ≤ (s0.hash.wend : ℚ)) :
    runState (some s0) ts M W n =
      some ⟨⟨s0.hash.start, s0.hash.wend, s0.hash.count + n⟩, s0.expiry⟩ := by
  induction n with
  | zero => simp [runState]
  | succ n ih =>
      rw [runState, ih (fun i hi => hin i (by omega))]
      rw [durationAcquire_inWindow ⟨⟨s0.hash.start, s0.hash.wend, s0.hash.count + n⟩, s0.expiry⟩
          (ts n) M W ((hin n (by omega)).1) ((hin n (by omega)).2)]
      simp only [Option.some.injEq, RedisKeyState.mk.injEq, LimiterRecord.mk.injEq,
        true_and, and_true]
      push_cast
      ring

/-- Starting from no stored record, `n + 1` calls all timed inside the window
opened by the first call leave a record with count `1 + n`. -/
lemma runState_none_inWindow (ts : ℕ → ℚ) (M W : Int) (n : ℕ)
    (hin : ∀ i, i ≤ n → (⌊ts 0⌋ : ℚ) ≤ ts i ∧ ts i ≤ ((⌊ts 0⌋ + W : Int) : ℚ)) :
    runState none ts M W (n + 1) = some ⟨⟨⌊ts 0⌋, ⌊ts 0⌋ + W, 1 + n⟩, W * 2⟩ := by
  rw [runState_succ_shift, durationAcquire_fresh none (ts 0) M W (Or.inl rfl)]
  rw [runState_inWindow ⟨⟨⌊ts 0⌋, ⌊ts 0⌋ + W, 1⟩, W * 2⟩ (fun i => ts (i + 1)) M W n
      (fun i hi => hin (i + 1) (by omega))]

/-- Result of call number `j + 1` (0-based) in a from-scratch sequence all
timed inside the first call's window. -/
lemma runResult_none_succ (ts : ℕ → ℚ) (M W : Int) (j : ℕ)
    (hin : ∀ i, i ≤ j + 1 → (⌊ts 0⌋ : ℚ) ≤ ts i ∧ ts i ≤ ((⌊ts 0⌋ + W : Int) : ℚ)) :
    runResult none ts M W (j + 1) =
      ⟨decide ((j : Int) + 2 ≤ M), ⌊ts 0⌋ + W, max 0 (M - ((j : Int) + 2))⟩ := by
  rw [runResult, runState_none_inWindow ts M W j (fun i hi => hin i (by omega))]
  rw [durationAcquire_inWindow ⟨⟨⌊ts 0⌋, ⌊ts 0⌋ + W, 1 + j⟩, W * 2⟩ (ts (j + 1)) M W
      (hin (j + 1) (by omega)).1 (hin (j + 1) (by omega)).2]
  simp only [DurationAcquireResult.mk.injEq, decide_eq_decide]
  refine ⟨by constructor <;> intro <;> omega, trivial, by omega⟩

/-- Result of the very first call in a from-scratch sequence. -/
lemma runResult_none_zero (ts : ℕ → ℚ) (M W : Int) :
    runResult none ts M W 0 = ⟨true, ⌊ts 0⌋ + W, max 0 (M - 1)⟩ := by
  rw [runResult]
  rw [show runState none ts M W 0 = none from rfl]
  rw [durationAcquire_fresh none (ts 0) M W (Or.inl rfl)]

/-- C1: for every window size `W > 0` and limit `M ≥ 1`, starting from no
stored record and with every call timed inside the window opened by the first
call, each of the first `M` invocations of `durationAcquire` returns
`allowed = true` with `remaining` strictly decreasing from `M - 1` down to
`0` (call `i` returns `M - 1 - i`), and the `(M+1)`-th invocation returns
`allowed = false` with `remaining = 0`; all `M + 1` calls report the same
`decaysAt`, namely `⌊ts 0⌋ + W`. -/
theorem C1_first_M_allowed_then_blocked (ts : ℕ → ℚ) (M W : Int)
    (hM : 1 ≤ M) (hW : 0 < W)
    (hin : ∀ i : ℕ, (i : Int) ≤ M →
      (⌊ts 0⌋ : ℚ) ≤ ts i ∧ ts i ≤ ((⌊ts 0⌋ + W : Int) : ℚ)) :
    (∀ i : ℕ, (i : Int) < M →
        (runResult none ts M W i).allowed = true ∧
        (runResult none ts M W i).remaining = M - 1 - i ∧
        (runResult none ts M W i).decaysAt = ⌊ts 0⌋ + W) ∧
    (runResult none ts M W M.toNat).allowed = false ∧
    (runResult none ts M W M.toNat).remaining = 0 ∧
    (runResult none ts M W M.toNat).decaysAt = ⌊ts 0⌋ + W := by
  constructor
  · intro i hi
    match i with
    | 0 =>
        rw [runResult_none_zero]
        refine ⟨rfl, ?_, rfl⟩
        simp only []
        omega
    | j + 1 =>
        rw [runResult_none_succ ts M W j (fun k hk => hin k (by omega))]
        have hj : (j : Int) + 2 ≤ M := by push_cast at hi; omega
        refine ⟨by simp [hj], ?_, rfl⟩
        simp only []
        push_cast
        omega
  · obtain ⟨j, hj⟩ : ∃ j, M.toNat = j + 1 := ⟨M.toNat - 1, by omega⟩
    have hjM : (j : Int) + 1 = M := by omega
    rw [hj, runResult_none_succ ts M W j (fun k hk => hin k (by omega))]
    refine ⟨by simp; omega, by simp only []; omega, rfl⟩

/-- Witness for `C1_first_M_allowed_then_blocked` at `ts i = 100`, `M = 2`,
`W = 5`. -/
theorem C1_witness :
    (runResult none (fun _ => (100 : ℚ)) 2 5 1).allowed = true ∧
    (runResult none (fun _ => (100 : ℚ)) 2 5 2).allowed = false := by
  have h := C1_first_M_allowed_then_blocked (fun _ => (100 : ℚ)) 2 5 (by norm_num)
    (by norm_num) (by intro i _; constructor <;> norm_num)
  exact ⟨(h.1 1 (by norm_num)).1, by simpa using h.2.1⟩

/-- Result of call number `n` (0-based) in a sequence starting from an
existing record, with every call timed inside that record's window. -/
lemma runResult_inWindow (s0 : RedisKeyState) (ts : ℕ → ℚ) (M W : Int) (n : ℕ)
    (hin : ∀ i, i ≤ n → (s0.hash.start : ℚ) ≤ ts i ∧ ts i ≤ (s0.hash.wend : ℚ)) :
    runResult (some s0) ts M W n =
      ⟨decide (s0.hash.count + n + 1 ≤ M), s0.hash.wend,
       max 0 (M - (s0.hash.count + n + 1))⟩ := by
  rw [runResult, runState_inWindow s0 ts M W n (fun i hi => hin i (by omega))]
  rw [durationAcquire_inWindow ⟨⟨s0.hash.start, s0.hash.wend, s0.hash.count + n⟩, s0.expiry⟩
      (ts n) M W (hin n (by omega)).1 (hin n (by omega)).2]

/-- C2: with a record holding count `c` out of limit `L` (so `M = L - c` slots
of capacity remain) and `N > M` racing callers for the same key in the same
window — which, by the script's atomicity, serialize into `N` sequential
executions in some order — exactly `M` of the `N` calls return
`allowed = true`, the other `N - M` return `allowed = false`, whatever the
serialization order's call times inside the window; and no two callers
observe the same ordinal count from `HINCRBY`. -/
theorem C2_exactly_M_concurrent_winners (s e x : Int) (c L : ℕ) (ts : ℕ → ℚ) (W : Int)
    (N : ℕ) (hcL : c ≤ L) (hN : L - c < N)
    (hin : ∀ i, i < N → (s : ℚ) ≤ ts i ∧ ts i ≤ (e : ℚ)) :
    ((Finset.range N).filter
        (fun i => (runResult (some ⟨⟨s, e, (c : Int)⟩, x⟩) ts (L : Int) W i).allowed = true)).card
      = L - c ∧
    ((Finset.range N).filter
        (fun i => (runResult (some ⟨⟨s, e, (c : Int)⟩, x⟩) ts (L : Int) W i).allowed = false)).card
      = N - (L - c) ∧
    (∀ i j, i < N → j < N →
      observedCount (some ⟨⟨s, e, (c : Int)⟩, x⟩) ts (L : Int) W i =
        observedCount (some ⟨⟨s, e, (c : Int)⟩, x⟩) ts (L : Int) W j → i = j) := by
  have hall : ∀ i, i < N →
      ((runResult (some ⟨⟨s, e, (c : Int)⟩, x⟩) ts (L : Int) W i).allowed = true ↔
        i < L - c) := by
    intro i hi
    rw [runResult_inWindow ⟨⟨s, e, (c : Int)⟩, x⟩ ts (L : Int) W i
        (fun k hk => hin k (by omega))]
    simp only [decide_eq_true_eq]
    constructor <;> intro <;> omega
  have hcount : ∀ i, i < N →
      observedCount (some ⟨⟨s, e, (c : Int)⟩, x⟩) ts (L : Int) W i = (c : Int) + i + 1 := by
    intro i hi
    rw [observedCount, runState_inWindow ⟨⟨s, e, (c : Int)⟩, x⟩ ts (L : Int) W (i + 1)
        (fun k hk => hin k (by omega))]
    push_cast
    ring
  refine ⟨?_, ?_, ?_⟩
  · have hset : (Finset.range N).filter
        (fun i => (runResult (some ⟨⟨s, e, (c : Int)⟩, x⟩) ts (L : Int) W i).allowed = true)
        = Finset.range (L - c) := by
      ext a
      simp only [Finset.mem_filter, Finset.mem_range]
      constructor
      · rintro ⟨haN, ha⟩
        exact (hall a haN).mp ha
      · intro haM
        exact ⟨by omega, (hall a (by omega)).mpr haM⟩
    rw [hset, Finset.card_range]
  · have hset : (Finset.range N).filter
        (fun i => (runResult (some ⟨⟨s, e, (c : Int)⟩, x⟩) ts (L : Int) W i).allowed = false)
        = Finset.range N \ Finset.range (L - c) := by
      ext a
      simp only [Finset.mem_filter, Finset.mem_range, Finset.mem_sdiff]
      constructor
      · rintro ⟨haN, ha⟩
        refine ⟨haN, fun haM => ?_⟩
        rw [(hall a haN).mpr haM] at ha
        exact Bool.true_eq_false.mp ha
      · rintro ⟨haN, haM⟩
        refine ⟨haN, ?_⟩
        have := fun h => haM ((hall a haN).mp h)
        cases hb : (runResult (some ⟨⟨s, e, (c : Int)⟩, x⟩) ts (L : Int) W a).allowed
        · rfl
        · exact absurd hb this
    rw [hset, Finset.card_sdiff (by intro a ha; simp only [Finset.mem_range] at *; omega),
      Finset.card_range, Finset.card_range]
  · intro i j hi hj hij
    rw [hcount i hi, hcount j hj] at hij
    omega

/-- Witness for `C2_exactly_M_concurrent_winners` with window `[0, 10]`,
count `1` of limit `2` (one slot left), and `3` racing calls at time `5`. -/
theorem C2_witness :
    ((Finset.range 3).filter
      (fun i => (runResult (some ⟨⟨0, 10, 1⟩, 20⟩) (fun _ => (5 : ℚ)) 2 10 i).allowed
        = true)).card = 1 := by
  have h := C2_exactly_M_concurrent_winners 0 10 20 1 2 (fun _ => (5 : ℚ)) 10 3
    (by norm_num) (by norm_num) (by intro i _; constructor <;> norm_num)
  simpa using h.1

/-- C3: whenever the procedure opens a fresh window — no record exists for
the key, or the stored record's window does not contain `now` — the call
returns `allowed = true` for every `maxCount M`, including `M = 0`, with
`remaining = max (M - 1) 0`; in particular, with `M = 0` the first
acquisition in a fresh window returns `allowed = true` with `remaining = 0`,
and a second call inside the freshly opened window returns
`allowed = false`. -/
theorem C3_fresh_window_always_allowed (st : Option RedisKeyState) (now now2 : ℚ)
    (M W : Int)
    (hfresh : st = none ∨
      ∃ s, st = some s ∧ ¬((s.hash.start : ℚ) ≤ now ∧ now ≤ (s.hash.wend : ℚ)))
    (h2a : (⌊now⌋ : ℚ) ≤ now2) (h2b : now2 ≤ ((⌊now⌋ + W : Int) : ℚ)) :
    ((durationAcquire st now M W).2.allowed = true ∧
     (durationAcquire st now M W).2.remaining = max (M - 1) 0) ∧
    ((durationAcquire st now 0 W).2.allowed = true ∧
     (durationAcquire st now 0 W).2.remaining = 0 ∧
     (durationAcquire (some (durationAcquire st now 0 W).1) now2 0 W).2.allowed
       = false) := by
  rw [durationAcquire_fresh st now M W hfresh, durationAcquire_fresh st now 0 W hfresh]
  refine ⟨⟨rfl, by show max 0 (M - 1) = max (M - 1) 0; omega⟩, rfl, by norm_num, ?_⟩
  rw [durationAcquire_inWindow ⟨⟨⌊now⌋, ⌊now⌋ + W, 1⟩, W * 2⟩ now2 0 W h2a h2b]
  simp

/-- Witness for `C3_fresh_window_always_allowed` at `st = none`, `now = 0`,
`now2 = 0`, `M = 7`, `W = 5`. -/
theorem C3_witness :
    (durationAcquire none 0 7 5).2.allowed = true ∧
    (durationAcquire (some (durationAcquire none 0 0 5).1) 0 0 5).2.allowed = false := by
  have h := C3_fresh_window_always_allowed none 0 0 7 5 (Or.inl rfl) (by norm_num)
    (by norm_num)
  exact ⟨h.1.1, h.2.2.2⟩

/-- C4: for a key with an existing record, a call at exactly the stored
`windowEnd` is treated as inside the window — the count is incremented, the
window fields and expiry are unchanged, and `decaysAt` is the stored
`windowEnd` — and likewise a call at exactly the stored `windowStart`:
membership is inclusive at both ends of `[windowStart, windowEnd]`. -/
theorem C4_boundary_inclusive (s : RedisKeyState) (M W : Int)
    (hle : s.hash.start ≤ s.hash.wend) :
    (durationAcquire (some s) ((s.hash.wend : ℚ)) M W).1 =
      ⟨⟨s.hash.start, s.hash.wend, s.hash.count + 1⟩, s.expiry⟩ ∧
    (durationAcquire (some s) ((s.hash.wend : ℚ)) M W).2.decaysAt = s.hash.wend ∧
    (durationAcquire (some s) ((s.hash.start : ℚ)) M W).1 =
      ⟨⟨s.hash.start, s.hash.wend, s.hash.count + 1⟩, s.expiry⟩ ∧
    (durationAcquire (some s) ((s.hash.start : ℚ)) M W).2.decaysAt = s.hash.wend := by
  rw [durationAcquire_inWindow s ((s.hash.wend : ℚ)) M W (by exact_mod_cast hle) le_rfl]
  rw [durationAcquire_inWindow s ((s.hash.start : ℚ)) M W le_rfl (by exact_mod_cast hle)]
  exact ⟨rfl, rfl, rfl, rfl⟩

/-- Witness for `C4_boundary_inclusive` at the record `[3, 8]` with count 1,
called at time 8. -/
theorem C4_witness :
    (durationAcquire (some ⟨⟨3, 8, 1⟩, 10⟩) ((8 : Int) : ℚ) 5 5).1 = ⟨⟨3, 8, 2⟩, 10⟩ := by
  have h := C4_boundary_inclusive ⟨⟨3, 8, 1⟩, 10⟩ 5 5 (by norm_num)
  simpa using h.1

/-- C5: for a key whose stored record's window does not contain `now`, the
next `durationAcquire` call discards the stale record and opens a fresh
window at `⌊now⌋`: it returns `allowed = true`, `remaining = M - 1` for limit
`M ≥ 1`, `decaysAt = ⌊now⌋ + W`, and the new record is
`[⌊now⌋, ⌊now⌋ + W]` with count 1. -/
theorem C5_stale_record_opens_fresh_window (s : RedisKeyState) (now : ℚ) (M W : Int)
    (hM : 1 ≤ M)
    (hout : ¬((s.hash.start : ℚ) ≤ now ∧ now ≤ (s.hash.wend : ℚ))) :
    (durationAcquire (some s) now M W).2.allowed = true ∧
    (durationAcquire (some s) now M W).2.remaining = M - 1 ∧
    (durationAcquire (some s) now M W).2.decaysAt = ⌊now⌋ + W ∧
    (durationAcquire (some s) now M W).1 = ⟨⟨⌊now⌋, ⌊now⌋ + W, 1⟩, W * 2⟩ := by
  rw [durationAcquire_fresh (some s) now M W (Or.inr ⟨s, rfl, hout⟩)]
  exact ⟨rfl, by show max 0 (M - 1) = M - 1; omega, rfl, rfl⟩

/-- Witness for `C5_stale_record_opens_fresh_window` at a record `[0, 5]` and
a call at time 7 with `M = 2`, `W = 5`. -/
theorem C5_witness :
    (durationAcquire (some ⟨⟨0, 5, 3⟩, 10⟩) 7 2 5).2.allowed = true ∧
    (durationAcquire (some ⟨⟨0, 5, 3⟩, 10⟩) 7 2 5).2.remaining = 1 := by
  have h := C5_stale_record_opens_fresh_window ⟨⟨0, 5, 3⟩, 10⟩ 7 2 5 (by norm_num)
    (by push_cast; norm_num)
  exact ⟨h.1, by simpa using h.2.1⟩

/-! ### Lemmas about the retry orchestrator -/

lemma luaStep_some_outWindow (s : RedisKeyState) (now : ℚ) (ns W M : Int)
    (h : ¬((s.hash.start : ℚ) ≤ now ∧ now ≤ (s.hash.wend : ℚ))) :
    luaStep (some s) now ns W M = luaReset ns W M := by
  simp only [luaStep]
  rw [if_neg h]

lemma luaStep_some_inWindow (s : RedisKeyState) (now : ℚ) (ns W M : Int)
    (h1 : (s.hash.start : ℚ) ≤ now) (h2 : now ≤ (s.hash.wend : ℚ)) :
    luaStep (some s) now ns W M =
      (⟨⟨s.hash.start, s.hash.wend, s.hash.count + 1⟩, s.expiry⟩,
       ⟨decide (s.hash.count + 1 ≤ M), s.hash.wend,
        if M - (s.hash.count + 1) < 0 then 0 else M - (s.hash.count + 1)⟩) := by
  simp [luaStep, h1, h2]

lemma thenLoop_timeout_throws (b : DurationLimiterBuilder)
    (attempts : ℕ → DurationAcquireResult) (elapsed : ℕ → ℚ) :
    ∀ fuel i, (∀ j, (attempts j).allowed = false) →
      (∃ k, i ≤ k ∧ k < i + fuel ∧ b.timeout ≤ elapsed k) →
      (b.thenLoop false attempts elapsed i fuel).2 =
        some (ThenResult.threw "LimiterTimeoutException" "LimiterTimeoutException") := by
  intro fuel
  induction fuel with
  | zero =>
      rintro i _ ⟨k, hk1, hk2, _⟩
      omega
  | succ fuel ih =>
      rintro i hno ⟨k, hk1, hk2, hk3⟩
      rw [DurationLimiterBuilder.thenLoop]
      simp only [hno i, Bool.false_eq_true, if_false, ge_iff_le]
      by_cases hei : b.timeout ≤ elapsed i
      · rw [if_pos hei]
      · rw [if_neg hei]
        refine ih (i + 1) hno ⟨k, ?_, by omega, hk3⟩
        rcases Nat.eq_or_lt_of_le hk1 with h | h
        · exact absurd (h ▸ hk3) hei
        · omega

/-- C6 counterexample: the claim says the `LimiterTimeout` error carries the
last observed acquire outcome; but two timed-out runs whose last observed
outcomes differ (`decaysAt` 100 vs 200) throw the very same error value —
`new Error('LimiterTimeoutException')` with only a name and message — so the
error carries no outcome at all. -/
theorem C6_counterexample :
    (DurationLimiterBuilder.thenRun ⟨1, 60, 3, 750⟩ false
        (fun _ => ⟨false, 100, 0⟩) (fun _ => 10) 1).2 =
      (DurationLimiterBuilder.thenRun ⟨1, 60, 3, 750⟩ false
        (fun _ => ⟨false, 200, 0⟩) (fun _ => 10) 1).2 ∧
    (DurationLimiterBuilder.thenRun ⟨1, 60, 3, 750⟩ false
        (fun _ => ⟨false, 100, 0⟩) (fun _ => 10) 1).2 =
      some (ThenResult.threw "LimiterTimeoutException" "LimiterTimeoutException") ∧
    (⟨false, 100, 0⟩ : DurationAcquireResult) ≠ ⟨false, 200, 0⟩ := by
  refine ⟨rfl, rfl, by decide⟩

/-- C6 as amended: when `timeout > 0`, no failure continuation was supplied,
and no acquisition is allowed before the deadline, `then` throws an `Error`
whose name and message are both `LimiterTimeoutException`; the error does not
carry the last observed acquire outcome. -/
theorem C6_amended_timeout_throws (b : DurationLimiterBuilder)
    (attempts : ℕ → DurationAcquireResult) (elapsed : ℕ → ℚ) (fuel k : ℕ)
    (ht : 0 < b.timeout) (hno : ∀ i, (attempts i).allowed = false)
    (hk : b.timeout ≤ elapsed k) (hfuel : k < fuel) :
    (b.thenRun false attempts elapsed fuel).2 =
      some (ThenResult.threw "LimiterTimeoutException" "LimiterTimeoutException") := by
  rw [DurationLimiterBuilder.thenRun, if_neg (not_le.mpr ht)]
  exact thenLoop_timeout_throws b attempts elapsed fuel 0 hno ⟨k, by omega, by omega, hk⟩

/-- Witness for `C6_amended_timeout_throws`: timeout 3, all attempts
rejected, elapsed 10 at the first re-check. -/
theorem C6_witness :
    (DurationLimiterBuilder.thenRun ⟨1, 60, 3, 750⟩ false
        (fun _ => ⟨false, 100, 0⟩) (fun _ => 10) 2).2 =
      some (ThenResult.threw "LimiterTimeoutException" "LimiterTimeoutException") :=
  C6_amended_timeout_throws ⟨1, 60, 3, 750⟩ (fun _ => ⟨false, 100, 0⟩) (fun _ => 10) 2 0
    (by norm_num) (fun _ => rfl) (by norm_num) (by norm_num)

/-- C7: when `timeout ≤ 0`, the single acquisition attempt is rejected, and
no failure continuation was supplied, `then` returns the boolean `false`; it
neither throws nor invokes the success callback (the outcome is
`returnedFalse`, not `threw` or `callbackRun`). -/
theorem C7_zero_timeout_returns_false (b : DurationLimiterBuilder)
    (attempts : ℕ → DurationAcquireResult) (elapsed : ℕ → ℚ) (fuel : ℕ)
    (ht : b.timeout ≤ 0) (hrej : (attempts 0).allowed = false) :
    (b.thenRun false attempts elapsed fuel).2 = some ThenResult.returnedFalse := by
  rw [DurationLimiterBuilder.thenRun, if_pos ht]
  simp [hrej]

/-- Witness for `C7_zero_timeout_returns_false` at timeout 0 with a rejected
attempt. -/
theorem C7_witness :
    (DurationLimiterBuilder.thenRun ⟨1, 60, 0, 750⟩ false
        (fun _ => ⟨false, 100, 0⟩) (fun _ => 0) 3).2 = some ThenResult.returnedFalse :=
  C7_zero_timeout_returns_false ⟨1, 60, 0, 750⟩ (fun _ => ⟨false, 100, 0⟩) (fun _ => 0) 3
    (by norm_num) rfl

/-- C8: after any execution of the window procedure with window size `W`
(over any pre-state whose record, if present, satisfies the window-width
invariant), the stored record satisfies `wend = start + W`; an in-window call
increments `count` by exactly 1 and changes nothing else; a window open
(absent record or out-of-window call) resets `count` to 1, starts the window
at the supplied `now_start`, and sets the key's expiry to `2 × W`. -/
theorem C8_record_invariants (st : Option RedisKeyState) (now : ℚ) (ns W M : Int)
    (hinv : ∀ s, st = some s → s.hash.wend = s.hash.start + W) :
    (luaStep st now ns W M).1.hash.wend = (luaStep st now ns W M).1.hash.start + W ∧
    (∀ s, st = some s → (s.hash.start : ℚ) ≤ now → now ≤ (s.hash.wend : ℚ) →
      (luaStep st now ns W M).1.hash.count = s.hash.count + 1 ∧
      (luaStep st now ns W M).1.hash.start = s.hash.start ∧
      (luaStep st now ns W M).1.hash.wend = s.hash.wend ∧
      (luaStep st now ns W M).1.expiry = s.expiry) ∧
    ((st = none ∨
        ∃ s, st = some s ∧ ¬((s.hash.start : ℚ) ≤ now ∧ now ≤ (s.hash.wend : ℚ))) →
      (luaStep st now ns W M).1.hash.count = 1 ∧
      (luaStep st now ns W M).1.hash.start = ns ∧
      (luaStep st now ns W M).1.expiry = 2 * W) := by
  cases st with
  | none =>
      refine ⟨rfl, ?_, ?_⟩
      · intro s hs
        cases hs
      · intro _
        refine ⟨rfl, rfl, ?_⟩
        show W * 2 = 2 * W
        ring
  | some s =>
      by_cases h : (s.hash.start : ℚ) ≤ now ∧ now ≤ (s.hash.wend : ℚ)
      · rw [luaStep_some_inWindow s now ns W M h.1 h.2]
        refine ⟨hinv s rfl, fun s' hs' _ _ => ?_, fun hfr => ?_⟩
        · cases hs'
          exact ⟨rfl, rfl, rfl, rfl⟩
        · rcases hfr with h' | ⟨s', hs', h'⟩
          · cases h'
          · cases hs'
            exact absurd h h'
      · rw [luaStep_some_outWindow s now ns W M h]
        refine ⟨rfl, fun s' hs' ha hb => ?_, fun _ => ⟨rfl, rfl, ?_⟩⟩
        · cases hs'
          exact absurd ⟨ha, hb⟩ h
        · show W * 2 = 2 * W
          ring

/-- Witness for `C8_record_invariants` at an absent record, `now = 0`,
`now_start = 7`, `W = 5`, `M = 3`. -/
theorem C8_witness :
    (luaStep none 0 7 5 3).1.hash.wend = (luaStep none 0 7 5 3).1.hash.start + 5 ∧
    (luaStep none 0 7 5 3).1.expiry = 2 * 5 := by
  have h := C8_record_invariants none 0 7 5 3 (by intro s hs; cases hs)
  exact ⟨h.1, (h.2.2 (Or.inl rfl)).2.2⟩

/-- C9: for every sequence of `durationAcquire` calls, any limit
`maxCount ≥ 0` and any window size `W > 0`, every returned `remaining` is
non-negative: the client floors the script's `remaining` at 0. -/
theorem C9_remaining_nonneg (init : Option RedisKeyState) (ts : ℕ → ℚ) (M W : Int)
    (n : ℕ) (hM : 0 ≤ M) (hW : 0 < W) :
    0 ≤ (runResult init ts M W n).remaining := by
  rw [runResult]
  show 0 ≤ max 0 (luaStep (runState init ts M W n) (ts n) ⌊ts n⌋ W M).2.remaining
  exact le_max_left 0 _

/-- Witness for `C9_remaining_nonneg` at a from-scratch single call. -/
theorem C9_witness : 0 ≤ (runResult none (fun _ => 0) 1 1 0).remaining :=
  C9_remaining_nonneg none (fun _ => 0) 1 1 0 (by norm_num) (by norm_num)

lemma thenLoop_fst (b : DurationLimiterBuilder) (hf : Bool)
    (attempts : ℕ → DurationAcquireResult) (elapsed : ℕ → ℚ) :
    ∀ fuel i, (b.thenLoop hf attempts elapsed i fuel).1 = b := by
  intro fuel
  induction fuel with
  | zero => intro i; rfl
  | succ fuel ih =>
      intro i
      rw [DurationLimiterBuilder.thenLoop]
      split_ifs <;> first | rfl | exact ih (i + 1)

/-- C10: invoking `then` never modifies the builder's configuration fields
(`maxLocks`, `decay`, `timeout`, `sleepMs`), whatever the outcome; and each
setter `allow`, `every`, `block`, `sleep` assigns exactly its own field,
leaves the other three unchanged, and returns the (thus updated) builder
itself. -/
theorem C10_builder_config_frame (b : DurationLimiterBuilder) (hf : Bool)
    (attempts : ℕ → DurationAcquireResult) (elapsed : ℕ → ℚ) (fuel : ℕ)
    (v : Int) (q : ℚ) :
    (b.thenRun hf attempts elapsed fuel).1 = b ∧
    ((b.allow v).maxLocks = v ∧ (b.allow v).decay = b.decay ∧
      (b.allow v).timeout = b.timeout ∧ (b.allow v).sleepMs = b.sleepMs) ∧
    ((b.every v).decay = v ∧ (b.every v).maxLocks = b.maxLocks ∧
      (b.every v).timeout = b.timeout ∧ (b.every v).sleepMs = b.sleepMs) ∧
    ((b.block q).timeout = q ∧ (b.block q).maxLocks = b.maxLocks ∧
      (b.block q).decay = b.decay ∧ (b.block q).sleepMs = b.sleepMs) ∧
    ((b.sleep v).sleepMs = v ∧ (b.sleep v).maxLocks = b.maxLocks ∧
      (b.sleep v).decay = b.decay ∧ (b.sleep v).timeout = b.timeout) := by
  refine ⟨?_, ⟨rfl, rfl, rfl, rfl⟩, ⟨rfl, rfl, rfl, rfl⟩, ⟨rfl, rfl, rfl, rfl⟩,
    ⟨rfl, rfl, rfl, rfl⟩⟩
  rw [DurationLimiterBuilder.thenRun]
  by_cases h : b.timeout ≤ 0
  · rw [if_pos h]
    cases h0 : (attempts 0).allowed <;> cases hf <;> simp [h0]
  · rw [if_neg h]
    exact thenLoop_fst b hf attempts elapsed fuel 0

end SamFcmWorker
